import Mathlib

/-!
# Verification of the goredis connection-handling core

Shallow embedding of the goredis TCP key-value server core:
the per-connection read loop (`src/peer.go`), the frame-to-command
mapping embedded in it, the dispatcher loop and message handler
(`src/main.go`), and the accept loop (`src/main.go`).

Bytes are modelled as `String` (the RESP library's `.Bytes()` and
`.String()` views of the same payload); peers are identified by a
`Nat` id standing for the `*Peer` pointer.
-/

namespace GoRedis

/-- Constant for the SET verb, from `src/proto.go` (`CommandSET = "SET"`). -/
def CommandSET : String := "SET"

/-- Modelled from the spec: the constant `CommandGET` is referenced by
`src/peer.go`'s `readLoop` but its declaration is not under `src/`;
per spec §4.3 the GET verb is the string "GET". -/
def CommandGET : String := "GET"

/-- The `Command` variant type. `SetCommand` is declared in `src/proto.go`
with fields `key, val []byte`; the `GetCommand` struct (fields per its use
in `src/peer.go`: a single `key []byte`) is constructed by `readLoop` but
its declaration is not under `src/` — its shape is taken from that use and
from spec §2 (`Get{key}`). -/
inductive Command where
  | SetCommand (key val : String)
  | GetCommand (key : String)
  deriving DecidableEq, Repr

/-- A peer identity: stands for the `*Peer` pointer used as map key in
`Server.peers` and carried in `Message.peer`. -/
abbrev PeerId := Nat

/-- `Message` from `src/main.go`: a command paired with the issuing peer. -/
structure Message where
  cmd : Command
  peer : PeerId
  deriving DecidableEq, Repr

/-! ## Frame-to-command mapping (`src/peer.go`, readLoop body)

A decoded RESP array frame is a `List String` (the `.String()` views of
its elements; `.Bytes()` of the same element is the same byte payload).
`readLoop` iterates over *every* element of the array: each element is
compared against `CommandGET` and `CommandSET`; on a match the total
arity of the whole frame is checked, a wrong arity returns the error
`"Invalid command"` (ending the read loop), a right arity sends the
constructed command on the message channel; a non-matching element
falls to the empty `default` branch and is skipped. -/

/-- One pass of `readLoop`'s inner `for _, value := range v.Array()` loop
over the remaining elements `elems` of the frame `frame`. Returns the
commands emitted to the message channel, in order, and the error the
enclosing `readLoop` call returns (`some "Invalid command"`), if any;
commands emitted before the error stay emitted. -/
def procElems (frame : List String) : List String → List Command × Option String
  | [] => ([], none)
  | e :: rest =>
    if e = CommandGET then
      if frame.length ≠ 2 then ([], some "Invalid command")
      else
        let res := procElems frame rest
        (Command.GetCommand (frame.getD 1 "") :: res.1, res.2)
    else if e = CommandSET then
      if frame.length ≠ 3 then ([], some "Invalid command")
      else
        let res := procElems frame rest
        (Command.SetCommand (frame.getD 1 "") (frame.getD 2 "") :: res.1, res.2)
    else
      procElems frame rest

/-- Processing of one decoded array frame by `readLoop`
(`src/peer.go`): the element scan starts at the head of the array. -/
def processFrame (frame : List String) : List Command × Option String :=
  procElems frame frame

/-! ## The read loop as a whole (`src/peer.go`, `Peer.readLoop`)

The loop reads RESP values until end of stream. We model the sequence
of read results as a list: each entry is either a successfully decoded
array frame or a non-EOF read error; the end of the list is EOF. -/

/-- One result of `rd.ReadValue()` in `readLoop`, EOF excluded (EOF is
the end of the event list). -/
inductive ReadEvent where
  | frame (f : List String)
  | readErr
  deriving DecidableEq, Repr

/-- How a `readLoop` invocation ends. -/
inductive LoopOutcome where
  | normal
  | cmdError (e : String)
  | fatal
  deriving DecidableEq, Repr

/-- `Peer.readLoop` from `src/peer.go`: on EOF (`[]`) break and return
nil (`normal`); on any other read error call `log.Fatal` (`fatal`,
terminating the whole process); on a decoded array frame run the
element scan, returning its error if it produced one (ending the
connection, `cmdError`) and otherwise reading on. Produces the list of
commands emitted to the server's message channel and the outcome. -/
def readLoop : List ReadEvent → List Command × LoopOutcome
  | [] => ([], .normal)
  | .readErr :: _ => ([], .fatal)
  | .frame f :: rest =>
    match processFrame f with
    | (ms, some e) => (ms, .cmdError e)
    | (ms, none) =>
      let res := readLoop rest
      (ms ++ res.1, res.2)

/-! ## The key-value store

Modelled from the spec: the KV store (`NewKV`, `KV.Get`, `KV.Set`,
field `kv.data`) is not under `src/`; per spec §4.5 it is a thin
synchronous `Get(key) -> (value, found)` / `Set(key, value) -> error`
surface over an in-memory mapping, exact-key, no eviction, and per §7
`Set` cannot fail under normal operation. We model the mapping as an
association list read through `kvGet`. -/

/-- The store's contents: most recent binding first. -/
abbrev KV := List (String × String)

/-- Modelled from the spec: `KV.Set` — bind `k` to `v`; never fails. -/
def kvSet (kv : KV) (k v : String) : KV := (k, v) :: kv

/-- Modelled from the spec: `KV.Get` — exact-key lookup,
`none` when the key was never written. -/
def kvGet (kv : KV) (k : String) : Option String :=
  match kv with
  | [] => none
  | (k', v) :: rest => if k' = k then some v else kvGet rest k

/-! ## The dispatcher (`src/main.go`, `Server.handleMessage` and `Server.Loop`) -/

/-- `Server.handleMessage` from `src/main.go`. Returns the updated
store, the `Send` invocations made (peer id and the raw value bytes
passed to `Peer.Send`), and the error value returned to `Loop`.
A `SetCommand` writes to the store and returns the store's error
(always nil in the model); a `GetCommand` looks up the key — if absent
it returns the error `"key not found"` without invoking any `Send`, if
present it invokes the issuing peer's `Send` with the value bytes
(a `Send` failure is only logged) and returns nil. -/
def handleMessage (kv : KV) (m : Message) : KV × List (PeerId × String) × Option String :=
  match m.cmd with
  | .SetCommand k v => (kvSet kv k v, [], none)
  | .GetCommand k =>
    match kvGet kv k with
    | none => (kv, [], some "key not found")
    | some v => (kv, [(m.peer, v)], none)

/-- The state owned by the dispatcher loop: the peer registry
(`Server.peers`, a set keyed by peer identity) and the store
(`Server.kv`). -/
structure ServerState where
  peers : Finset PeerId
  kv : KV
  deriving DecidableEq

/-- The state of a freshly constructed server (`NewServer`): empty peer
map, empty store. -/
def initState : ServerState := ⟨∅, []⟩

/-- One event received by `Server.Loop`'s `select`. -/
inductive ServerEvent where
  | quit
  | msg (m : Message)
  | addPeer (p : PeerId)
  | delPeer (p : PeerId)
  deriving DecidableEq, Repr

/-- One non-quit iteration of `Server.Loop` from `src/main.go`:
a message is handled by `handleMessage` (whose returned error is only
logged); an add-peer event inserts the peer into the registry; a
del-peer event deletes it (a no-op when absent). Returns the new state
and the `Send` invocations made during the iteration. The quit case is
handled by `runLoop`. -/
def serverStep (s : ServerState) (e : ServerEvent) : ServerState × List (PeerId × String) :=
  match e with
  | .quit => (s, [])
  | .msg m =>
    let res := handleMessage s.kv m
    ({ s with kv := res.1 }, res.2.1)
  | .addPeer p => ({ s with peers := insert p s.peers }, [])
  | .delPeer p => ({ s with peers := s.peers.erase p }, [])

/-- `Server.Loop` from `src/main.go` run over a finite event sequence:
events are processed strictly one at a time; a quit signal exits the
loop, dropping the rest. Returns the final state and the concatenated
`Send` invocations. -/
def runLoop (s : ServerState) : List ServerEvent → ServerState × List (PeerId × String)
  | [] => (s, [])
  | .quit :: _ => (s, [])
  | e :: rest =>
    let step := serverStep s e
    let res := runLoop step.1 rest
    (res.1, step.2 ++ res.2)

/-- The dispatcher state after processing an event sequence. -/
def applyEvents (s : ServerState) (es : List ServerEvent) : ServerState :=
  (runLoop s es).1

/-- Does this event write key `k` into the store?
(Used to state frame conditions decidably.) -/
def setsKey (e : ServerEvent) (k : String) : Bool :=
  match e with
  | .msg ⟨.SetCommand k' _, _⟩ => k' = k
  | _ => false

/-! ## The accept loop (`src/main.go`, `Server.acceptLoop`) -/

/-- One result of `s.ln.Accept()`: a new connection (identified by a
`Nat`) or an accept error. -/
inductive AcceptResult where
  | ok (c : Nat)
  | err
  deriving DecidableEq, Repr

/-- `Server.acceptLoop` from `src/main.go` over a finite sequence of
accept results: an accept error is logged and the loop `continue`s; a
successful accept spawns `handleConn` for the connection. Returns the
connections handed to `handleConn`, in order. -/
def acceptLoop : List AcceptResult → List Nat
  | [] => []
  | .err :: rest => acceptLoop rest
  | .ok c :: rest => c :: acceptLoop rest

/-! ## The connection worker's event emission

Modelled from the spec: the worker variant that emits peer-lifecycle
events on the server's `addPeerCh`/`delPeerCh` channels is not under
`src/` (`src/main.go` is its caller — `NewPeer(conn, s.msgCh,
s.delPeerCh)` and `handleConn` sending on `addPeerCh` — and
`server_test.go` its test, but `src/peer.go` declares a two-argument
`NewPeer` without `delPeerCh` and never emits a remove event). Per
spec §4.2 the worker emits add-peer before reading, forwards each
decoded command as an envelope, and emits remove-peer when the read
loop terminates, on clean end-of-stream or on any error. -/
def workerEvents (p : PeerId) (reads : List ReadEvent) : List ServerEvent :=
  .addPeer p :: ((readLoop reads).1.map (fun c => .msg ⟨c, p⟩) ++ [.delPeer p])

/-! ## Helper lemmas -/

lemma runLoop_cons (s : ServerState) (e : ServerEvent) (rest : List ServerEvent)
    (h : e ≠ .quit) :
    runLoop s (e :: rest)
      = ((runLoop (serverStep s e).1 rest).1,
         (serverStep s e).2 ++ (runLoop (serverStep s e).1 rest).2) := by
  cases e
  · exact absurd rfl h
  all_goals rfl

lemma applyEvents_cons (s : ServerState) (e : ServerEvent) (rest : List ServerEvent)
    (h : e ≠ .quit) :
    applyEvents s (e :: rest) = applyEvents (serverStep s e).1 rest := by
  unfold applyEvents
  rw [runLoop_cons s e rest h]

lemma runLoop_append (s : ServerState) (es₁ es₂ : List ServerEvent)
    (hq : ServerEvent.quit ∉ es₁) :
    runLoop s (es₁ ++ es₂)
      = ((runLoop (applyEvents s es₁) es₂).1,
         (runLoop s es₁).2 ++ (runLoop (applyEvents s es₁) es₂).2) := by
  induction es₁ generalizing s with
  | nil => simp [applyEvents, runLoop]
  | cons e es ih =>
    have he : e ≠ ServerEvent.quit := fun h => hq (h ▸ List.mem_cons_self _ _)
    have hq' : ServerEvent.quit ∉ es := fun h => hq (List.mem_cons_of_mem _ h)
    rw [List.cons_append, runLoop_cons _ _ _ he, ih _ hq',
        applyEvents_cons _ _ _ he, runLoop_cons _ _ _ he]
    simp

lemma applyEvents_append (s : ServerState) (es₁ es₂ : List ServerEvent)
    (hq : ServerEvent.quit ∉ es₁) :
    applyEvents s (es₁ ++ es₂) = applyEvents (applyEvents s es₁) es₂ := by
  unfold applyEvents
  rw [runLoop_append s es₁ es₂ hq]
  rfl

lemma kv_serverStep (s : ServerState) (e : ServerEvent) (k : String)
    (h : setsKey e k = false) :
    kvGet ((serverStep s e).1).kv k = kvGet s.kv k := by
  cases e with
  | quit => rfl
  | msg m =>
    obtain ⟨cmd, p⟩ := m
    cases cmd with
    | SetCommand k' v' =>
      have hk : k' ≠ k := by simpa [setsKey] using h
      simp [serverStep, handleMessage, kvGet, kvSet, hk]
    | GetCommand k' =>
      cases hkv : kvGet s.kv k' <;> simp [serverStep, handleMessage, hkv]
  | addPeer p => rfl
  | delPeer p => rfl

lemma kv_applyEvents (s : ServerState) (es : List ServerEvent) (k : String)
    (h : ∀ e ∈ es, setsKey e k = false) :
    kvGet (applyEvents s es).kv k = kvGet s.kv k := by
  induction es generalizing s with
  | nil => rfl
  | cons e es ih =>
    by_cases he : e = ServerEvent.quit
    · subst he; rfl
    · rw [applyEvents_cons _ _ _ he,
          ih _ (fun e' he' => h e' (List.mem_cons_of_mem _ he')),
          kv_serverStep _ _ _ (h e (List.mem_cons_self _ _))]

lemma peers_applyEvents_msgs (s : ServerState) (p : PeerId) (cmds : List Command) :
    (applyEvents s (cmds.map (fun c => ServerEvent.msg ⟨c, p⟩))).peers = s.peers := by
  induction cmds generalizing s with
  | nil => rfl
  | cons c cs ih =>
    rw [List.map_cons, applyEvents_cons _ _ _ (by simp), ih]
    rfl

lemma erase_insert_peers (p : PeerId) (A : Finset PeerId) :
    (insert p A).erase p = A.erase p := by
  ext x
  simp only [Finset.mem_erase, Finset.mem_insert]
  tauto

lemma procElems_get_ok (fr rest : List String) (hl : fr.length = 2) :
    procElems fr (CommandGET :: rest)
      = (Command.GetCommand (fr.getD 1 "") :: (procElems fr rest).1,
         (procElems fr rest).2) := by
  rw [procElems, if_pos rfl, if_neg (by omega)]

lemma procElems_get_bad (fr rest : List String) (hl : fr.length ≠ 2) :
    procElems fr (CommandGET :: rest) = ([], some "Invalid command") := by
  rw [procElems, if_pos rfl, if_pos hl]

lemma procElems_set_ok (fr rest : List String) (hl : fr.length = 3) :
    procElems fr (CommandSET :: rest)
      = (Command.SetCommand (fr.getD 1 "") (fr.getD 2 "") :: (procElems fr rest).1,
         (procElems fr rest).2) := by
  rw [procElems, if_neg (by decide), if_pos rfl, if_neg (by omega)]

lemma procElems_set_bad (fr rest : List String) (hl : fr.length ≠ 3) :
    procElems fr (CommandSET :: rest) = ([], some "Invalid command") := by
  rw [procElems, if_neg (by decide), if_pos rfl, if_pos hl]

lemma procElems_skip (fr : List String) (e : String) (rest : List String)
    (hg : e ≠ CommandGET) (hs : e ≠ CommandSET) :
    procElems fr (e :: rest) = procElems fr rest := by
  rw [procElems, if_neg hg, if_neg hs]

/-! ## Claims -/

/-- C1: dispatching a `Set{k, v}` envelope, then any later events that
neither write key `k` nor quit, then a `Get{k}` envelope from any peer
`p2` (possibly different from the setter `p1`), results in exactly the
value bytes `v` being sent to `p2` via its `Send` operation: the
dispatcher's output is the intermediate events' output followed by
exactly the single send `(p2, v)`. -/
theorem set_then_get_sends_value (s : ServerState) (k v : String) (p1 p2 : PeerId)
    (mid : List ServerEvent) (hq : ServerEvent.quit ∉ mid)
    (hs : ∀ e ∈ mid, setsKey e k = false) :
    (runLoop s (.msg ⟨.SetCommand k v, p1⟩ :: (mid ++ [.msg ⟨.GetCommand k, p2⟩]))).2
      = (runLoop { s with kv := kvSet s.kv k v } mid).2 ++ [(p2, v)] := by
  have hlook : kvGet (applyEvents { s with kv := kvSet s.kv k v } mid).kv k = some v := by
    rw [kv_applyEvents _ _ _ hs]
    simp [kvGet, kvSet]
  have hget : (runLoop (applyEvents { s with kv := kvSet s.kv k v } mid)
      [ServerEvent.msg ⟨Command.GetCommand k, p2⟩]).2 = [(p2, v)] := by
    simp [runLoop, serverStep, handleMessage, hlook]
  rw [runLoop_cons _ _ _ (by simp)]
  show ((serverStep s (ServerEvent.msg ⟨Command.SetCommand k v, p1⟩)).2
      ++ (runLoop { s with kv := kvSet s.kv k v } (mid ++ [_])).2) = _
  rw [runLoop_append _ _ _ hq]
  simp [serverStep, handleMessage, hget]

/-- Witness for `set_then_get_sends_value` at a concrete input: a
different peer (id 2) issues the Get, with an unrelated Set and an
add-peer event in between. -/
theorem set_then_get_sends_value_witness :
    (runLoop initState
        [.msg ⟨.SetCommand "foo" "bar", 1⟩, .addPeer 3,
         .msg ⟨.SetCommand "baz" "qux", 1⟩, .msg ⟨.GetCommand "foo", 2⟩]).2
      = (runLoop { initState with kv := kvSet initState.kv "foo" "bar" }
          [.addPeer 3, .msg ⟨.SetCommand "baz" "qux", 1⟩]).2 ++ [(2, "bar")] :=
  set_then_get_sends_value initState "foo" "bar" 1 2
    [.addPeer 3, .msg ⟨.SetCommand "baz" "qux", 1⟩] (by decide) (by decide)

/-- C2 (failing input): the code, evaluated at the claim's failing
input. A malformed `SET` frame (one argument) followed by a well-formed
`GET` frame on the same connection: `readLoop` returns the
`"Invalid command"` error at the malformed frame, terminating the
connection's read loop; the subsequent well-formed `GET` is never
decoded or dispatched (no command is emitted at all), contradicting the
claim that the malformed frame is skipped and reading continues. -/
theorem malformed_frame_terminates_readLoop :
    readLoop [.frame ["SET", "x"], .frame ["GET", "x"]]
      = ([], .cmdError "Invalid command") := by decide

/-- C3 (failing input): the code, evaluated at the claim's failing
input. On any non-EOF read/decode error, `readLoop` (src/peer.go)
calls `log.Fatal`, which terminates the whole process (`fatal`), rather
than logging and returning an error value; whatever reads follow are
never served. -/
theorem read_error_is_fatal (rest : List ReadEvent) :
    readLoop (.readErr :: rest) = ([], .fatal) := rfl

/-- C4: for every connection worker trace (add-peer, the dispatched
envelopes, then the remove-peer event emitted when the read loop
terminates), the dispatcher deletes the peer from the registry: after
the trace is processed the peer is not in the registry, and the
registry equals the original with the peer erased; conversely, while
the worker is active (after add-peer, after any number of dispatched
envelopes) the peer is in the registry. -/
theorem worker_peer_registry (s : ServerState) (p : PeerId) (reads : List ReadEvent) :
    p ∉ (applyEvents s (workerEvents p reads)).peers ∧
    (applyEvents s (workerEvents p reads)).peers = s.peers.erase p ∧
    ∀ cmds : List Command,
      p ∈ (applyEvents s
        (.addPeer p :: cmds.map (fun c => ServerEvent.msg ⟨c, p⟩))).peers := by
  have key : (applyEvents s (workerEvents p reads)).peers = s.peers.erase p := by
    unfold workerEvents
    rw [applyEvents_cons _ _ _ (by simp),
        applyEvents_append _ _ _ (by simp)]
    have hdel : ∀ t : ServerState,
        (applyEvents t [ServerEvent.delPeer p]).peers = t.peers.erase p :=
      fun t => rfl
    rw [hdel, peers_applyEvents_msgs]
    show ((insert p s.peers).erase p) = _
    exact erase_insert_peers p s.peers
  refine ⟨key ▸ Finset.not_mem_erase p _, key, ?_⟩
  intro cmds
  rw [applyEvents_cons _ _ _ (by simp), peers_applyEvents_msgs]
  exact Finset.mem_insert_self p _

/-- C5: a `Get{k}` envelope for a key `k` that no Set event has ever
written (starting from the fresh server state) makes `handleMessage`
report `"key not found"` as its returned error, invoking no `Send` at
all: the dispatcher's output is unchanged by such a Get, so no stale or
garbage value is ever delivered to the issuing peer. -/
theorem get_unset_key_not_found (k : String) (p : PeerId) (es : List ServerEvent)
    (hq : ServerEvent.quit ∉ es) (hs : ∀ e ∈ es, setsKey e k = false) :
    handleMessage (applyEvents initState es).kv ⟨.GetCommand k, p⟩
        = ((applyEvents initState es).kv, [], some "key not found") ∧
    (runLoop initState (es ++ [.msg ⟨.GetCommand k, p⟩])).2
        = (runLoop initState es).2 := by
  have hlook : kvGet (applyEvents initState es).kv k = none := by
    rw [kv_applyEvents _ _ _ hs]
    rfl
  constructor
  · simp [handleMessage, hlook]
  · rw [runLoop_append _ _ _ hq]
    simp [runLoop, serverStep, handleMessage, hlook]

/-- Witness for `get_unset_key_not_found` at a concrete input: key
`"missing"` was never set, another key was. -/
theorem get_unset_key_not_found_witness :
    handleMessage
        (applyEvents initState [.msg ⟨.SetCommand "foo" "bar", 1⟩]).kv
        ⟨.GetCommand "missing", 7⟩
      = ((applyEvents initState [.msg ⟨.SetCommand "foo" "bar", 1⟩]).kv,
         [], some "key not found") ∧
    (runLoop initState
        ([.msg ⟨.SetCommand "foo" "bar", 1⟩] ++ [.msg ⟨.GetCommand "missing", 7⟩])).2
      = (runLoop initState [.msg ⟨.SetCommand "foo" "bar", 1⟩]).2 :=
  get_unset_key_not_found "missing" 7 [.msg ⟨.SetCommand "foo" "bar", 1⟩]
    (by decide) (by decide)

/-- C6 (counterexample): the claim that "any other verb yields an
unknown-command error" is false on the code: the frame `["DEL", "x"]`
produces no error at all (and no command) — the unknown verb is
silently skipped; moreover the frame `["FOO", "GET"]`, whose verb
(first element) is unknown, nevertheless constructs and emits the
command `Get{key = "GET"}`, because the verb match is applied to every
element. -/
theorem unknown_verb_no_error :
    processFrame ["DEL", "x"] = ([], none) ∧
    processFrame ["FOO", "GET"] = ([Command.GetCommand "GET"], none) := by decide

/-- C6 (amended): element-wise mapping. A frame `["GET", k]` (arity 2,
`k` not itself a verb) emits exactly `Get{k}` with no error; a frame
`["SET", k, v]` (arity 3, `k`, `v` not verbs) emits exactly `Set{k, v}`
with no error; whenever any element of a frame, at any position, equals
GET while the total arity is not 2, or equals SET while the total arity
is not 3, the frame is aborted with the arity error `"Invalid
command"`; every command ever constructed from a frame is the
right-arity one for that frame — `Get{frame[1]}` only at total arity 2,
`Set{frame[1], frame[2]}` only at total arity 3 — so no Command is
constructed from an arity-violating element; and a frame none of whose
elements equals GET or SET is skipped silently: no command and no error
(in particular an unknown verb yields no unknown-command error). -/
theorem frame_mapping (k v : String)
    (hk1 : k ≠ "GET") (hk2 : k ≠ "SET") (hv1 : v ≠ "GET") (hv2 : v ≠ "SET") :
    processFrame ["GET", k] = ([Command.GetCommand k], none) ∧
    processFrame ["SET", k, v] = ([Command.SetCommand k v], none) ∧
    (∀ fr : List String,
      (∃ e ∈ fr, (e = "GET" ∧ fr.length ≠ 2) ∨ (e = "SET" ∧ fr.length ≠ 3)) →
      (processFrame fr).2 = some "Invalid command") ∧
    (∀ fr : List String, ∀ c ∈ (processFrame fr).1,
      (fr.length = 2 ∧ c = Command.GetCommand (fr.getD 1 "")) ∨
      (fr.length = 3 ∧ c = Command.SetCommand (fr.getD 1 "") (fr.getD 2 ""))) ∧
    (∀ fr : List String, (∀ e ∈ fr, e ≠ "GET" ∧ e ≠ "SET") →
      processFrame fr = ([], none)) := by
  have skip : ∀ (fr elems : List String),
      (∀ e ∈ elems, e ≠ "GET" ∧ e ≠ "SET") → procElems fr elems = ([], none) := by
    intro fr elems h
    induction elems with
    | nil => rfl
    | cons e rest ih =>
      have he := h e (List.mem_cons_self _ _)
      rw [procElems_skip fr e rest he.1 he.2]
      exact ih (fun e' he' => h e' (List.mem_cons_of_mem _ he'))
  have errs : ∀ (fr elems : List String),
      (∃ e ∈ elems, (e = "GET" ∧ fr.length ≠ 2) ∨ (e = "SET" ∧ fr.length ≠ 3)) →
      (procElems fr elems).2 = some "Invalid command" := by
    intro fr elems
    induction elems with
    | nil =>
      rintro ⟨e, he, -⟩
      simp at he
    | cons e rest ih =>
      rintro ⟨e2, he2, hbad⟩
      by_cases hg : e = CommandGET
      · subst hg
        by_cases hl : fr.length = 2
        · rw [procElems_get_ok fr rest hl]
          apply ih
          rcases List.mem_cons.mp he2 with h | h
          · exfalso
            rcases hbad with ⟨-, h2⟩ | ⟨h1, -⟩
            · exact h2 hl
            · rw [h] at h1
              exact absurd h1 (by decide)
          · exact ⟨e2, h, hbad⟩
        · rw [procElems_get_bad fr rest hl]
      · by_cases hsv : e = CommandSET
        · subst hsv
          by_cases hl : fr.length = 3
          · rw [procElems_set_ok fr rest hl]
            apply ih
            rcases List.mem_cons.mp he2 with h | h
            · exfalso
              rcases hbad with ⟨h1, -⟩ | ⟨-, h2⟩
              · rw [h] at h1
                exact absurd h1 (by decide)
              · exact h2 hl
            · exact ⟨e2, h, hbad⟩
          · rw [procElems_set_bad fr rest hl]
        · rw [procElems_skip fr e rest hg hsv]
          apply ih
          rcases List.mem_cons.mp he2 with h | h
          · exfalso
            rcases hbad with ⟨h1, -⟩ | ⟨h1, -⟩
            · exact hg (h ▸ h1)
            · exact hsv (h ▸ h1)
          · exact ⟨e2, h, hbad⟩
  have cmds : ∀ (fr elems : List String), ∀ c ∈ (procElems fr elems).1,
      (fr.length = 2 ∧ c = Command.GetCommand (fr.getD 1 "")) ∨
      (fr.length = 3 ∧ c = Command.SetCommand (fr.getD 1 "") (fr.getD 2 "")) := by
    intro fr elems
    induction elems with
    | nil =>
      intro c hc
      simp [procElems] at hc
    | cons e rest ih =>
      intro c hc
      by_cases hg : e = CommandGET
      · subst hg
        by_cases hl : fr.length = 2
        · rw [procElems_get_ok fr rest hl] at hc
          rcases List.mem_cons.mp hc with h | h
          · exact Or.inl ⟨hl, h⟩
          · exact ih c h
        · rw [procElems_get_bad fr rest hl] at hc
          simp at hc
      · by_cases hsv : e = CommandSET
        · subst hsv
          by_cases hl : fr.length = 3
          · rw [procElems_set_ok fr rest hl] at hc
            rcases List.mem_cons.mp hc with h | h
            · exact Or.inr ⟨hl, h⟩
            · exact ih c h
          · rw [procElems_set_bad fr rest hl] at hc
            simp at hc
        · rw [procElems_skip fr e rest hg hsv] at hc
          exact ih c hc
  refine ⟨?_, ?_, fun fr h => errs fr fr h, fun fr => cmds fr fr,
    fun fr h => skip fr fr h⟩
  · show procElems ["GET", k] (CommandGET :: [k]) = _
    rw [procElems_get_ok ["GET", k] [k] rfl, skip _ [k] (by simp [hk1, hk2])]
    rfl
  · show procElems ["SET", k, v] (CommandSET :: [k, v]) = _
    rw [procElems_set_ok ["SET", k, v] [k, v] rfl,
        skip _ [k, v] (by simp [hk1, hk2, hv1, hv2])]
    rfl

/-- Witness for `frame_mapping` at concrete inputs: key `"foo"`, value
`"bar"`; the universal clauses applied to the bare frame `["SET"]`, to
an abort at a non-head position and arity 3 (`["SET", "GET", "x"]`), to
a GET at arity 5, and to the unknown-verb frame `["DEL", "x"]`. -/
theorem frame_mapping_witness :
    processFrame ["GET", "foo"] = ([Command.GetCommand "foo"], none) ∧
    processFrame ["SET", "foo", "bar"] = ([Command.SetCommand "foo" "bar"], none) ∧
    (processFrame ["SET"]).2 = some "Invalid command" ∧
    (processFrame ["SET", "GET", "x"]).2 = some "Invalid command" ∧
    (processFrame ["GET", "a", "b", "c", "d"]).2 = some "Invalid command" ∧
    processFrame ["DEL", "x"] = ([], none) := by
  obtain ⟨h1, h2, h3, -, h5⟩ :=
    frame_mapping "foo" "bar" (by decide) (by decide) (by decide) (by decide)
  exact ⟨h1, h2, h3 ["SET"] (by decide), h3 ["SET", "GET", "x"] (by decide),
    h3 ["GET", "a", "b", "c", "d"] (by decide), h5 ["DEL", "x"] (by decide)⟩

/-- C7: a `Set{k, v}` envelope makes the dispatcher write the pair into
the store via `kvSet`, invoke no `Send` on any peer, and return no
error; and the dispatcher loop then simply continues with the remaining
events (the whole run equals the run of the remaining events from the
updated state — in particular the Set contributes no output bytes and
never stops the loop). -/
theorem set_is_fire_and_forget (kv : KV) (k v : String) (p : PeerId) :
    handleMessage kv ⟨.SetCommand k v, p⟩ = (kvSet kv k v, [], none) ∧
    ∀ (s : ServerState) (rest : List ServerEvent),
      runLoop s (.msg ⟨.SetCommand k v, p⟩ :: rest)
        = runLoop { s with kv := kvSet s.kv k v } rest := by
  refine ⟨rfl, fun s rest => ?_⟩
  rw [runLoop_cons _ _ _ (by simp)]
  show ((runLoop { s with kv := kvSet s.kv k v } rest).1,
    [] ++ (runLoop { s with kv := kvSet s.kv k v } rest).2) = _
  simp

/-- C8: an accept failure is logged and the accept loop continues with
the next accept: the connections handed to `handleConn` are exactly
those of the same sequence with the failed accept removed, wherever in
the sequence the failure occurs — a single failed accept never
terminates the accept loop nor affects any other connection. -/
theorem accept_error_skipped (xs ys : List AcceptResult) :
    acceptLoop (xs ++ .err :: ys) = acceptLoop (xs ++ ys) := by
  induction xs with
  | nil => rfl
  | cons x xs ih =>
    cases x <;> simp [acceptLoop, ih]

/-- C10: each dispatcher step touches at most one state component:
handling any message envelope leaves the peer registry unchanged;
add-peer and remove-peer events leave the store unchanged; and a Get
envelope additionally leaves the store unchanged. -/
theorem step_frame_conditions (s : ServerState) (m : Message) (p : PeerId)
    (k : String) (pr : PeerId) :
    ((serverStep s (.msg m)).1).peers = s.peers ∧
    ((serverStep s (.addPeer p)).1).kv = s.kv ∧
    ((serverStep s (.delPeer p)).1).kv = s.kv ∧
    ((serverStep s (.msg ⟨.GetCommand k, pr⟩)).1).kv = s.kv := by
  refine ⟨rfl, rfl, rfl, ?_⟩
  cases hkv : kvGet s.kv k <;> simp [serverStep, handleMessage, hkv]

/-- C9: the verb match in `readLoop` is applied to every element of the
decoded array, not only the first: on the frame `["SET", "GET", v]` — a
SET whose key bytes are `"GET"` — the loop first emits the correct
envelope `Set{key = "GET", value = v}` (the SET match at element 0,
arity 3), and then, matching `"GET"` at element 1 against a frame of
arity 3, returns the `"Invalid command"` error from the same frame,
terminating the connection: nothing after that frame is read. -/
theorem verb_matched_on_every_element (v : String) (rest : List ReadEvent) :
    readLoop (.frame ["SET", "GET", v] :: rest)
      = ([Command.SetCommand "GET" v], .cmdError "Invalid command") := rfl

end GoRedis
